import Mathlib

/-!
Verification of the two command-line tools in this repository:
the GTNH folder archiver (archive-tool/archive_modpack.py) and the
BellSoft Java installer (bellsoft-java-installer/bellsoft_java.py).

Python functions are shallowly embedded as Lean functions.  File sizes are
natural numbers; the float arithmetic of the size formatters only divides
by powers of two and compares against powers of two, so it is exact and is
modelled over the rationals.  Filesystem and network effects are made
explicit as input data (directory listings, outcomes of fallible calls)
and output records (which files were removed, whether a request happened).
-/

/-! ## Python string primitives

Python's str operations are embedded code-point-wise over the character
list of a string, which both matches Python's sequence-of-code-points view
of str and keeps every definition kernel-evaluable. -/

/-- Python s.startswith(p). -/
def pyStartsWith (s p : String) : Bool := List.isPrefixOf p.toList s.toList

/-- Python s.endswith(p). -/
def pyEndsWith (s p : String) : Bool := List.isSuffixOf p.toList s.toList

/-- Python s.strip(): drop leading and trailing whitespace. -/
def pyStrip (s : String) : String :=
  String.mk
    (((s.toList.dropWhile Char.isWhitespace).reverse.dropWhile
      Char.isWhitespace).reverse)

/-- Python s.upper() on ASCII text. -/
def pyUpper (s : String) : String := String.mk (s.toList.map Char.toUpper)

/-- Python s.lower() on ASCII text. -/
def pyLower (s : String) : String := String.mk (s.toList.map Char.toLower)

/-- Python int(s) for a string of decimal digits. -/
def pyToNat (s : String) : Nat :=
  s.toList.foldl (fun acc c => acc * 10 + (c.toNat - 48)) 0

/-- Python string comparison a <= b: lexicographic by code point. -/
def charListLe : List Char → List Char → Bool
  | [], _ => true
  | _ :: _, [] => false
  | a :: as, b :: bs => if a = b then charListLe as bs else decide (a < b)

/-- Python a <= b on strings. -/
def pyStrLe (a b : String) : Bool := charListLe a.toList b.toList

/-! ## Size formatting (archive_modpack.format_size, bellsoft_java.human_size) -/

/-- Round a nonnegative rational num/den to the nearest integer, ties to
even.  This is the rounding Python applies when formatting a float whose
binary value is exactly num/den with a fixed number of decimals. -/
def roundHalfEven (num den : Nat) : Nat :=
  let q := num / den
  let r := num % den
  if 2 * r < den then q
  else if den < 2 * r then q + 1
  else if q % 2 = 0 then q else q + 1

/-- Render a nonnegative rational with d digits after the decimal point,
rounding to nearest, ties to even (Python fixed-point float formatting). -/
def renderFixed (x : ℚ) (d : Nat) : String :=
  let scaled := roundHalfEven (x.num.toNat * 10 ^ d) x.den
  let ip := scaled / 10 ^ d
  let fp := scaled % 10 ^ d
  let fpStr := toString fp
  let pad := String.mk (List.replicate (d - fpStr.length) '0')
  toString ip ++ "." ++ pad ++ fpStr

/-- The unit table of archive_modpack.format_size. -/
def fsUnits : List String := ["B", "KB", "MB", "GB"]

/-- The for-loop of format_size: walk the unit table, dividing the size by
1024 until it drops below 1024 or the unit 'GB' is reached.  The empty-list
case is unreachable because fsUnits is nonempty. -/
def fsScan : ℚ → List String → ℚ × String
  | sz, [] => (sz, "")
  | sz, u :: rest =>
    if sz < 1024 ∨ u = "GB" then (sz, u) else fsScan (sz / 1024) rest

/-- archive_modpack.format_size: human-readable size with two decimals. -/
def format_size (n : Nat) : String :=
  if n = 0 then "0 B"
  else
    let p := fsScan (n : ℚ) fsUnits
    renderFixed p.1 2 ++ " " ++ p.2

/-- Spec reading of format_size: pick the least k with n / 1024^k < 1024,
capped at the last unit, and render n / 1024^k with two decimals. -/
def format_size_spec (n : Nat) : String :=
  if n = 0 then "0 B"
  else
    let k := if n < 1024 then 0 else if n < 1024 ^ 2 then 1
             else if n < 1024 ^ 3 then 2 else 3
    renderFixed ((n : ℚ) / 1024 ^ k) 2 ++ " " ++ fsUnits.getD k ""

/-- The unit table of bellsoft_java.human_size. -/
def hsUnits : List String := ["Б", "КБ", "МБ", "ГБ", "ТБ"]

/-- The while-loop of human_size: divide by 1024 while the size is at
least 1024 and the last unit has not been reached. -/
def hsLoop (sz : ℚ) (unit : Nat) : ℚ × Nat :=
  if 1024 ≤ sz ∧ unit < hsUnits.length - 1 then hsLoop (sz / 1024) (unit + 1)
  else (sz, unit)
termination_by hsUnits.length - unit
decreasing_by simp [hsUnits] at *; omega

/-- bellsoft_java.human_size: human-readable size with one decimal. -/
def human_size (n : Nat) : String :=
  if n = 0 then "0 Б"
  else
    let p := hsLoop (n : ℚ) 0
    renderFixed p.1 1 ++ " " ++ hsUnits.getD p.2 ""

/-- Spec reading of human_size: least k with n / 1024^k < 1024, capped at
the last unit, rendered with one decimal. -/
def human_size_spec (n : Nat) : String :=
  if n = 0 then "0 Б"
  else
    let k := if n < 1024 then 0 else if n < 1024 ^ 2 then 1
             else if n < 1024 ^ 3 then 2 else if n < 1024 ^ 4 then 3 else 4
    renderFixed ((n : ℚ) / 1024 ^ k) 1 ++ " " ++ hsUnits.getD k ""

/-! ## Folder discovery (archive_modpack.find_gtnh_folders) -/

/-- An entry of the current working directory, as seen by Path.iterdir. -/
structure DirEntry where
  name : String
  isDir : Bool
deriving DecidableEq, Repr

/-- archive_modpack.find_gtnh_folders: keep the directory entries whose
name starts with the prefix (the global PREFIX when none is given) and
return them sorted by name.  globalPfx is the module-level PREFIX. -/
def find_gtnh_folders (globalPfx : String) (pfx : Option String)
    (cwd : List DirEntry) : List DirEntry :=
  let p := pfx.getD globalPfx
  List.insertionSort (fun a b => pyStrLe a.name b.name = true)
    (cwd.filter (fun e => e.isDir && pyStartsWith e.name p))

/-! ## Backup pruning (archive_modpack.manage_backups) -/

/-- A file of the archive directory, identified by name and mtime. -/
structure ArchiveFile where
  name : String
  mtime : Nat
deriving DecidableEq, Repr

/-- Whether a file name matches the glob pattern folderName_*.zip used by
manage_backups (and print_folders_list): it starts with folderName plus an
underscore, ends with .zip, and is long enough for the two parts not to
overlap. -/
def matchesBackup (folderName : String) (f : ArchiveFile) : Bool :=
  pyStartsWith f.name (folderName ++ "_") && pyEndsWith f.name ".zip" &&
    decide (folderName.length + 5 ≤ f.name.length)

/-- archive_modpack.manage_backups over a directory listing: when
maxBackups is positive and more than maxBackups archives match
folderName_*.zip, sort the matching archives by mtime, newest first
(Python's sorted with reverse=True is stable, as is insertionSort), and
every archive past the first maxBackups.  Returns the directory after the
deletions together with the list of deleted archives. -/
def manage_backups (folderName : String) (dir : List ArchiveFile)
    (maxBackups : Int) : List ArchiveFile × List ArchiveFile :=
  if maxBackups ≤ 0 then (dir, [])
  else
    let archives := List.insertionSort (fun a b => b.mtime ≤ a.mtime)
      (dir.filter (matchesBackup folderName))
    if maxBackups < (archives.length : Int) then
      let deleted := archives.drop maxBackups.toNat
      (dir.filter (fun f => decide (f ∉ deleted)), deleted)
    else (dir, [])

/-! ## Settings loading (archive_modpack.load_settings and
bellsoft_java.Settings.load_settings) -/

/-- A JSON scalar value, enough for both settings files. -/
inductive JVal where
  | str (s : String)
  | num (n : Int)
  | bool (b : Bool)
  | null
deriving DecidableEq, Repr

/-- The state the settings file can be found in. -/
inductive SettingsFileState where
  | missing
  | unreadable
  | invalidJson
  | parsed (obj : List (String × JVal))
deriving DecidableEq, Repr

/-- Python dict assignment d[k] = v on an association-list model with
unique keys: replace the binding of k if present, else append. -/
def dictInsert : List (String × JVal) → String → JVal → List (String × JVal)
  | [], k, v => [(k, v)]
  | kv :: t, k, v =>
    if kv.1 = k then (k, v) :: t else kv :: dictInsert t k v

/-- Python dict.update (equivalently the double-splat merge of the archive
tool): assign every pair of the second dict into the first, in order. -/
def dictUpdate (m add : List (String × JVal)) : List (String × JVal) :=
  add.foldl (fun acc kv => dictInsert acc kv.1 kv.2) m

/-- Python dict lookup d.get(k) on the association-list model. -/
def dictGet (m : List (String × JVal)) (k : String) : Option JVal :=
  (m.find? (fun kv => kv.1 = k)).map (fun kv => kv.2)

/-- Both load_settings functions: if the settings file exists and parses,
return the defaults updated with the loaded pairs; if it is missing,
unreadable or invalid JSON, return a copy of the defaults.
archive_modpack.load_settings merges with a double splat and
Settings.load_settings with dict.update; the two are the same operation. -/
def load_settings (defaults : List (String × JVal)) (st : SettingsFileState) :
    List (String × JVal) :=
  match st with
  | .parsed obj => dictUpdate defaults obj
  | _ => defaults

/-! ## Archive creation (archive_modpack.create_archive) -/

/-- Everything create_archive observes from the outside world: whether the
zip-writing block (or statting the result) raises, the verify_archive
verdict, whether pruning old backups or prompting raises inside the outer
try, the answer typed at the deletion prompt, the default_delete setting,
and whether shutil.rmtree raises. -/
structure CreateArchiveEnv where
  zipRaises : Bool
  verifyOk : Bool
  backupsRaise : Bool
  inputRaises : Bool
  response : String
  defaultDelete : Bool
  rmtreeRaises : Bool
deriving DecidableEq, Repr

/-- What a run of create_archive did: its return value, whether
shutil.rmtree was invoked on the source folder, and whether the folder was
actually removed. -/
structure CreateArchiveResult where
  returnValue : Bool
  rmtreeCalled : Bool
  folderRemoved : Bool
deriving DecidableEq, Repr

/-- The prompt answer after stripping, uppercasing and applying the
default: an empty answer becomes Y or N according to default_delete. -/
def effectiveResponse (resp : String) (defaultDelete : Bool) : String :=
  let r := pyUpper (pyStrip resp)
  if r = "" then (if defaultDelete then "Y" else "N") else r

/-- archive_modpack.create_archive, reduced to its observable effects.
Any exception inside the outer try lands in the except branch, which
returns False without touching the source folder.  When verification
fails the function prints a warning and still returns True.  Only when
verification succeeded and the effective prompt answer is Y is rmtree
called; an exception from rmtree is caught and the function returns
True. -/
def create_archive (env : CreateArchiveEnv) : CreateArchiveResult :=
  if env.zipRaises then ⟨false, false, false⟩
  else if env.verifyOk then
    if env.backupsRaise then ⟨false, false, false⟩
    else if env.inputRaises then ⟨false, false, false⟩
    else if effectiveResponse env.response env.defaultDelete = "Y" then
      ⟨true, true, !env.rmtreeRaises⟩
    else ⟨true, false, false⟩
  else ⟨true, false, false⟩

/-! ## Hidden-file filtering during the zip walk (create_archive) -/

/-- A filesystem subtree below the archived folder. -/
inductive FsEntry where
  | file (name : String)
  | dir (name : String) (children : List FsEntry)
deriving Repr

/-- Whether a name is hidden in the sense of create_archive's filter. -/
def isHidden (n : String) : Bool := pyStartsWith n "."

/-- The files of one os.walk level that get written: the file entries, all
of them when showHidden and only the non-hidden ones otherwise.  Paths are
relative to the walked folder. -/
def levelFiles (showHidden : Bool) (cs : List FsEntry) : List (List String) :=
  cs.filterMap fun e => match e with
    | .file n => if showHidden || !isHidden n then some [n] else none
    | .dir _ _ => none

/-- The recursive part of the walk: for each subdirectory, pruned when it
is hidden and showHidden is off, the files written from its subtree, in
os.walk order (a directory's own files before its subdirectories). -/
def subWalks (showHidden : Bool) : List FsEntry → List (List String)
  | [] => []
  | .file _ :: rest => subWalks showHidden rest
  | .dir n sub :: rest =>
    (if showHidden || !isHidden n then
      (levelFiles showHidden sub ++ subWalks showHidden sub).map (n :: ·)
    else [])
    ++ subWalks showHidden rest

/-- All file paths (relative to the folder) written into the archive by
create_archive's walk over the folder's entries cs. -/
def walkFrom (showHidden : Bool) (cs : List FsEntry) : List (List String) :=
  levelFiles showHidden cs ++ subWalks showHidden cs

/-- The same walk with no filtering at all: every file of the tree. -/
def allLevelFiles (cs : List FsEntry) : List (List String) :=
  cs.filterMap fun e => match e with
    | .file n => some [n]
    | .dir _ _ => none

/-- Every file path of the subtrees, unfiltered. -/
def allSubWalks : List FsEntry → List (List String)
  | [] => []
  | .file _ :: rest => allSubWalks rest
  | .dir n sub :: rest =>
    (allLevelFiles sub ++ allSubWalks sub).map (n :: ·) ++ allSubWalks rest

/-- Every file path of the tree, unfiltered. -/
def allWalkFrom (cs : List FsEntry) : List (List String) :=
  allLevelFiles cs ++ allSubWalks cs

/-! ## Menu selection (bellsoft_java.select_option, select_release) -/

/-- Python str.isdigit for ASCII input: nonempty and all characters are
decimal digits. -/
def pyIsDigit (s : String) : Bool := !s.isEmpty && s.toList.all Char.isDigit

/-- The input loop shared by select_option and select_release: read
answers until one is the back choice "0" (when allowed) or a digit string
naming a listed option; exhausting the input models EOFError, which both
functions catch and turn into None. -/
def selectLoop (options : List α) (allowBack : Bool) :
    List String → Option α
  | [] => none
  | c :: rest =>
    if c = "0" && allowBack then none
    else if pyIsDigit c then
      if 1 ≤ pyToNat c ∧ pyToNat c - 1 < options.length then
        options.get? (pyToNat c - 1)
      else selectLoop options allowBack rest
    else selectLoop options allowBack rest

/-- bellsoft_java.select_option: empty option lists are rejected up front
with None; otherwise run the input loop. -/
def select_option (options : List α) (allowBack : Bool)
    (inputs : List String) : Option α :=
  if options.isEmpty then none
  else selectLoop options allowBack inputs

/-- bellsoft_java.select_release: same structure as select_option with the
back choice always available and no line trimming. -/
def select_release (releases : List α) (inputs : List String) : Option α :=
  if releases.isEmpty then none
  else selectLoop releases true inputs

/-! ## API fetching (bellsoft_java.JavaInstaller.fetch_api_data) -/

/-- Outcome of the single network request fetch_api_data may make. -/
inductive NetworkOutcome where
  | ok (newName : String)
  | urlErr
  | otherErr
deriving DecidableEq, Repr

/-- What fetch_api_data observes: the cache directory listing, each file's
mtime, the current time, the force flag, the offline_mode,
cache_max_age_hours and keep_old_cache settings, and what the network
would answer. -/
structure FetchEnv where
  dirListing : List String
  mtime : String → Int
  now : Int
  force : Bool
  offline : Bool
  cacheMaxAgeHours : Int
  keepOldCache : Nat
  network : NetworkOutcome

/-- What a run of fetch_api_data did: its return value, the cache file it
settled on, how many network requests it made, and which old cache files
it removed. -/
structure FetchResult where
  success : Bool
  cacheFile : Option String
  requests : Nat
  deletedCaches : List String
deriving DecidableEq, Repr

/-- The cache files of the listing (name starts with api-cache- and ends
with .json), sorted name-descending as cache_files.sort(reverse=True)
leaves them. -/
def cacheFilesOf (listing : List String) : List String :=
  List.insertionSort (fun a b => pyStrLe b a = true)
    (listing.filter
      (fun f => pyStartsWith f "api-cache-" && pyEndsWith f ".json"))

/-- The part of fetch_api_data after the fresh-cache shortcut: offline
mode falls back to the newest cache or fails; otherwise one request is
made, and on success the new cache is written and caches past
keep_old_cache are removed, on URLError the newest existing cache is used
if there is one, and any other error fails. -/
def fetchRest (env : FetchEnv) (caches : List String) : FetchResult :=
  if env.offline then
    match caches with
    | c :: _ => ⟨true, some c, 0, []⟩
    | [] => ⟨false, none, 0, []⟩
  else
    match env.network with
    | .ok newName =>
      ⟨true, some newName, 1,
        if env.keepOldCache < caches.length then caches.drop env.keepOldCache
        else []⟩
    | .urlErr =>
      match caches with
      | c :: _ => ⟨true, some c, 1, []⟩
      | [] => ⟨false, none, 1, []⟩
    | .otherErr => ⟨false, none, 1, []⟩

/-- bellsoft_java.JavaInstaller.fetch_api_data: if a cache file exists,
the run is not forced and the newest cache (name-descending first) is
younger than cache_max_age_hours, use it without touching the network;
otherwise proceed to the offline/network logic. -/
def fetch_api_data (env : FetchEnv) : FetchResult :=
  match cacheFilesOf env.dirListing with
  | latest :: rest =>
    if ¬env.force ∧
        env.now - env.mtime latest < env.cacheMaxAgeHours * 3600 then
      ⟨true, some latest, 0, []⟩
    else fetchRest env (latest :: rest)
  | [] => fetchRest env []

/-! ## Artifact download (bellsoft_java.JavaInstaller.download_file) -/

/-- What download_file observes: whether a file already sits at the
download path, its size and SHA1, the expected size and SHA1 (0 and ""
model the falsy absent values), the download_resume and check_sha1
settings, and the download outcome (none models an exception; some gives
the size and SHA1 of the bytes that got written). -/
structure DownloadEnv where
  fileExists : Bool
  existingSize : Nat
  existingSha1 : String
  expectedSize : Nat
  expectedSha1 : String
  downloadResume : Bool
  checkSha1 : Bool
  download : Option (Nat × String)
deriving DecidableEq, Repr

/-- What a run of download_file did: whether a path was returned, whether
the pre-existing file was reused without downloading, whether a download
happened, the SHA1 of the file at the returned path, and whether the file
at the download path was removed. -/
structure DownloadResult where
  returnedPath : Bool
  usedExisting : Bool
  downloaded : Bool
  finalSha1 : Option String
  removedFile : Bool
deriving DecidableEq, Repr

/-- The download part of download_file: on an exception the partial file
is removed and None returned; after a completed download a size mismatch
only warns, and when a checksum is expected and check_sha1 is on a SHA1
mismatch (case-insensitive) deletes the file and returns None, else the
path is returned. -/
def doDownload (env : DownloadEnv) : DownloadResult :=
  match env.download with
  | none => ⟨false, false, true, none, true⟩
  | some (_, sha) =>
    if env.expectedSha1 ≠ "" ∧ env.checkSha1 ∧
        pyLower sha ≠ pyLower env.expectedSha1 then
      ⟨false, false, true, none, true⟩
    else ⟨true, false, true, some sha, false⟩

/-- bellsoft_java.JavaInstaller.download_file: a pre-existing file is
considered when download_resume is on; if its size equals the truthy
expected size it is reused, after a successful case-insensitive SHA1 check
when a checksum is expected and check_sha1 is on; any other case falls
through to the download. -/
def download_file (env : DownloadEnv) : DownloadResult :=
  if env.fileExists ∧ env.downloadResume then
    if env.expectedSize ≠ 0 ∧ env.existingSize = env.expectedSize then
      if env.expectedSha1 ≠ "" ∧ env.checkSha1 then
        if pyLower env.existingSha1 = pyLower env.expectedSha1 then
          ⟨true, true, false, some env.existingSha1, false⟩
        else doDownload env
      else ⟨true, true, false, some env.existingSha1, false⟩
    else doDownload env
  else doDownload env

/-! ## Catalog filtering (bellsoft_java.JavaInstaller.get_unique_values) -/

/-- A catalog item: a JSON object with field values of type V (the
catalog's values must be mutually comparable for sorted() to work, hence
the linear order). -/
def Item (V : Type) : Type := List (String × V)

/-- Python item.get(key) on a catalog item. -/
def itemGet (it : Item V) (k : String) : Option V :=
  (List.find? (fun kv => kv.1 = k) it).map (fun kv => kv.2)

/-- Whether an item passes every filter: each filter key must be present
with exactly the filter's value (a missing key compares unequal).  An
absent or empty filter mapping (falsy in Python) filters nothing. -/
def passesFilters [DecidableEq V] (filters : Option (List (String × V)))
    (it : Item V) : Bool :=
  match filters with
  | none => true
  | some fl => fl.all (fun kv => itemGet it kv.1 == some kv.2)

/-- bellsoft_java.JavaInstaller.get_unique_values: over the loaded catalog
(an absent or empty catalog gives []), collect into a set the truthy
values the field takes on the items passing all filters, and return them
sorted. -/
def get_unique_values [DecidableEq V] [LinearOrder V]
    (apiData : Option (List (Item V))) (field : String)
    (filters : Option (List (String × V))) (truthy : V → Bool) : List V :=
  match apiData with
  | none => []
  | some items =>
    if items.isEmpty then []
    else
      let vals := (items.filter (passesFilters filters)).filterMap
        (fun it => match itemGet it field with
          | some v => if truthy v then some v else none
          | none => none)
      List.insertionSort (fun a b => a ≤ b) vals.dedup

/-! ## Theorems -/

/-- C1: the source folder is removed only when verify_archive returned
True on the fresh archive and the deletion prompt was answered
affirmatively (a Y, or an empty answer with default_delete on); whenever
the integrity check fails or archive creation raises, rmtree is never
called and the folder stays. -/
theorem claim_C1_create_archive_deletion (env : CreateArchiveEnv) :
    ((create_archive env).rmtreeCalled = true →
      env.zipRaises = false ∧ env.verifyOk = true ∧
      effectiveResponse env.response env.defaultDelete = "Y")
    ∧ ((env.verifyOk = false ∨ env.zipRaises = true) →
      (create_archive env).rmtreeCalled = false ∧
      (create_archive env).folderRemoved = false) := by
  cases hz : env.zipRaises <;> cases hv : env.verifyOk <;>
    cases hb : env.backupsRaise <;> cases hi : env.inputRaises <;>
    by_cases hr : effectiveResponse env.response env.defaultDelete = "Y" <;>
    simp [create_archive, hz, hv, hb, hi, hr]

/-- Witness for C1 at a concrete run: a clean run answered "y" with
verification passing does call rmtree, and the theorem then certifies the
answer was effectively Y. -/
theorem claim_C1_create_archive_deletion_witness :
    (create_archive ⟨false, true, false, false, "y", true, false⟩).rmtreeCalled
      = true
    ∧ effectiveResponse "y" true = "Y" :=
  ⟨by decide,
   ((claim_C1_create_archive_deletion
      ⟨false, true, false, false, "y", true, false⟩).1 (by decide)).2.2⟩

/-- C5: find_gtnh_folders returns exactly the current directory's entries
that are directories whose name starts with the prefix, and with prefix
None it uses the global PREFIX. -/
theorem claim_C5_find_gtnh_folders (g : String) (p : Option String)
    (cwd : List DirEntry) (e : DirEntry) :
    (e ∈ find_gtnh_folders g p cwd ↔
      e ∈ cwd ∧ e.isDir = true ∧ pyStartsWith e.name (p.getD g) = true)
    ∧ find_gtnh_folders g none cwd = find_gtnh_folders g (some g) cwd := by
  constructor
  · unfold find_gtnh_folders
    rw [(List.perm_insertionSort _ _).mem_iff, List.mem_filter]
    simp [and_assoc]
  · rfl

/-- Membership bound for the shared selection loop: any returned value is
one of the listed options. -/
lemma selectLoop_mem {α : Type} (options : List α) (ab : Bool)
    (inputs : List String) (x : α)
    (h : selectLoop options ab inputs = some x) : x ∈ options := by
  induction inputs with
  | nil => simp [selectLoop] at h
  | cons c rest ih =>
    rw [selectLoop] at h
    split at h
    · simp at h
    · split at h
      · split at h
        · exact List.get?_mem h
        · exact ih h
      · exact ih h

/-- C9: select_option and select_release return None or an element of the
given list, never anything else, and return None immediately on an empty
list. -/
theorem claim_C9_select_bounds {α : Type} (options : List α) (ab : Bool)
    (inputs : List String) (x : α) :
    (select_option options ab inputs = some x → x ∈ options)
    ∧ (select_release options inputs = some x → x ∈ options)
    ∧ select_option ([] : List α) ab inputs = none
    ∧ select_release ([] : List α) inputs = none := by
  refine ⟨?_, ?_, ?_, ?_⟩
  · intro h
    unfold select_option at h
    split at h
    · simp at h
    · exact selectLoop_mem _ _ _ _ h
  · intro h
    unfold select_release at h
    split at h
    · simp at h
    · exact selectLoop_mem _ _ _ _ h
  · simp [select_option]
  · simp [select_release]

/-- Witness for C9 at a concrete run: after one invalid answer the input
"2" selects the second option, which the theorem certifies is listed. -/
theorem claim_C9_select_bounds_witness :
    select_option [10, 20, 30] true ["x", "2"] = some 20
    ∧ (20 : Nat) ∈ [10, 20, 30] :=
  ⟨by decide, (claim_C9_select_bounds [10, 20, 30] true ["x", "2"] 20).1
    (by decide)⟩

/-- Helper: fetchRest never makes more than one network request. -/
lemma fetchRest_requests_le_one (env : FetchEnv) (caches : List String) :
    (fetchRest env caches).requests ≤ 1 := by
  unfold fetchRest
  split
  · cases caches <;> simp
  · cases env.network with
    | ok n => simp
    | urlErr => cases caches <;> simp
    | otherErr => simp

/-- Helper: fetchRest in offline mode uses the newest cache or fails. -/
lemma fetchRest_offline (env : FetchEnv) (h : env.offline = true) :
    fetchRest env [] = ⟨false, none, 0, []⟩
    ∧ ∀ c cs, fetchRest env (c :: cs) = ⟨true, some c, 0, []⟩ := by
  constructor
  · simp [fetchRest, h]
  · intro c cs; simp [fetchRest, h]

/-- Helper: fetchRest online on URLError uses the newest cache or fails. -/
lemma fetchRest_urlErr (env : FetchEnv) (h : env.offline = false)
    (hn : env.network = .urlErr) :
    fetchRest env [] = ⟨false, none, 1, []⟩
    ∧ ∀ c cs, fetchRest env (c :: cs) = ⟨true, some c, 1, []⟩ := by
  constructor
  · simp [fetchRest, h, hn]
  · intro c cs; simp [fetchRest, h, hn]

/-- C3: fetch_api_data makes at most one network request; with a cache
file present, not forced, and the newest (name-descending first) cache
younger than cache_max_age_hours it uses that cache with no request; in
offline mode, and likewise on URLError, it succeeds with the newest cache
when one exists and fails when none does. -/
theorem claim_C3_fetch_api_data (env : FetchEnv) :
    (fetch_api_data env).requests ≤ 1
    ∧ (∀ c cs, cacheFilesOf env.dirListing = c :: cs → env.force = false →
        env.now - env.mtime c < env.cacheMaxAgeHours * 3600 →
        fetch_api_data env = ⟨true, some c, 0, []⟩)
    ∧ (env.offline = true →
        (fetch_api_data env).requests = 0
        ∧ (∀ c cs, cacheFilesOf env.dirListing = c :: cs →
            (fetch_api_data env).success = true ∧
            (fetch_api_data env).cacheFile = some c)
        ∧ (cacheFilesOf env.dirListing = [] →
            (fetch_api_data env).success = false ∧
            (fetch_api_data env).cacheFile = none))
    ∧ (env.offline = false → env.network = .urlErr →
        (∀ c cs, cacheFilesOf env.dirListing = c :: cs →
          (fetch_api_data env).success = true ∧
          (fetch_api_data env).cacheFile = some c)
        ∧ (cacheFilesOf env.dirListing = [] →
            (fetch_api_data env).success = false)) := by
  unfold fetch_api_data
  cases hl : cacheFilesOf env.dirListing with
  | nil =>
    dsimp only
    refine ⟨fetchRest_requests_le_one env [], by simp, ?_, ?_⟩
    · intro hoff
      rw [(fetchRest_offline env hoff).1]
      simp
    · intro hoff hnet
      rw [(fetchRest_urlErr env hoff hnet).1]
      simp
  | cons c cs =>
    dsimp only
    by_cases hfresh : ¬env.force = true ∧
        env.now - env.mtime c < env.cacheMaxAgeHours * 3600
    · rw [if_pos hfresh]
      refine ⟨by simp, by intro c' cs' hc; cases hc; simp, ?_, ?_⟩
      · intro _
        refine ⟨rfl, ?_, by simp⟩
        intro c' cs' hc; cases hc; simp
      · intro _ _
        refine ⟨?_, by simp⟩
        intro c' cs' hc; cases hc; simp
    · rw [if_neg hfresh]
      refine ⟨fetchRest_requests_le_one env _, ?_, ?_, ?_⟩
      · intro c' cs' hc hforce hage
        cases hc
        exact absurd ⟨by simp [hforce], hage⟩ hfresh
      · intro hoff
        rw [(fetchRest_offline env hoff).2 c cs]
        refine ⟨rfl, ?_, by simp⟩
        intro c' cs' hc; cases hc; simp
      · intro hoff hnet
        rw [(fetchRest_urlErr env hoff hnet).2 c cs]
        refine ⟨?_, by simp⟩
        intro c' cs' hc; cases hc; simp

/-- Witness for C3 at a concrete run: one stale cache file on disk,
online, and the request fails with URLError; the theorem certifies the
stale cache is used and the call still succeeds. -/
theorem claim_C3_fetch_api_data_witness :
    cacheFilesOf ["readme.txt", "api-cache-20250101_000000.json"]
      = ["api-cache-20250101_000000.json"]
    ∧ (fetch_api_data
        ⟨["readme.txt", "api-cache-20250101_000000.json"], fun _ => 0,
          1000000000, false, false, 24, 3, .urlErr⟩).success = true
    ∧ (fetch_api_data
        ⟨["readme.txt", "api-cache-20250101_000000.json"], fun _ => 0,
          1000000000, false, false, 24, 3, .urlErr⟩).cacheFile
      = some "api-cache-20250101_000000.json" :=
  ⟨by decide,
   ((claim_C3_fetch_api_data _).2.2.2 rfl rfl).1
     "api-cache-20250101_000000.json" [] (by decide)⟩

/-- Helper: looking up k' after assigning k sees the new value at k and
the old map elsewhere. -/
lemma dictGet_dictInsert (m : List (String × JVal)) (k k' : String)
    (v : JVal) :
    dictGet (dictInsert m k v) k' = if k' = k then some v else dictGet m k' := by
  induction m with
  | nil =>
    by_cases h : k' = k
    · subst h; simp [dictInsert, dictGet]
    · simp [dictInsert, dictGet, List.find?_cons, Ne.symm h, h]
  | cons a t ih =>
    by_cases hak : a.1 = k
    · rw [dictInsert, if_pos hak]
      by_cases h : k' = k
      · subst h
        simp [dictGet, List.find?_cons, hak]
      · have h2 : (decide (a.1 = k') = false) := by
          rw [hak]; simpa using Ne.symm h
        simp [dictGet, List.find?_cons, Ne.symm h, h, h2, hak]
    · rw [dictInsert, if_neg hak]
      by_cases hk' : a.1 = k'
      · have : ¬ k' = k := fun he => hak (hk'.trans he)
        simp [dictGet, List.find?_cons, hk', this]
      · have h2 : (decide (a.1 = k') = false) := by simpa using hk'
        simp only [dictGet, List.find?_cons, h2] at *
        simpa using ih

/-- Helper: assigning keys never makes an existing key disappear. -/
lemma dictGet_isSome_dictUpdate (add m : List (String × JVal)) (k : String)
    (h : (dictGet m k).isSome) :
    (dictGet (dictUpdate m add) k).isSome := by
  induction add generalizing m with
  | nil => simpa [dictUpdate] using h
  | cons kv t ih =>
    have hstep : (dictGet (dictInsert m kv.1 kv.2) k).isSome := by
      rw [dictGet_dictInsert]
      split <;> simp [h]
    have : dictUpdate m (kv :: t) = dictUpdate (dictInsert m kv.1 kv.2) t := by
      simp [dictUpdate]
    rw [this]
    exact ih _ hstep

/-- Helper: updating with a dict that does not bind k leaves k alone. -/
lemma dictGet_dictUpdate_not_mem (add m : List (String × JVal)) (k : String)
    (h : ∀ kv ∈ add, kv.1 ≠ k) :
    dictGet (dictUpdate m add) k = dictGet m k := by
  induction add generalizing m with
  | nil => simp [dictUpdate]
  | cons kv t ih =>
    have : dictUpdate m (kv :: t) = dictUpdate (dictInsert m kv.1 kv.2) t := by
      simp [dictUpdate]
    rw [this, ih _ (fun x hx => h x (List.mem_cons_of_mem _ hx)),
      dictGet_dictInsert]
    rw [if_neg (fun he => h kv (List.mem_cons_self _ _) he.symm)]

/-- Helper: a binding of the loaded dict wins in the updated dict. -/
lemma dictGet_dictUpdate_of_mem (add m : List (String × JVal)) (k : String)
    (v : JVal) (hnd : (add.map Prod.fst).Nodup) (h : dictGet add k = some v) :
    dictGet (dictUpdate m add) k = some v := by
  induction add generalizing m with
  | nil => simp [dictGet] at h
  | cons kv t ih =>
    have hstep : dictUpdate m (kv :: t) = dictUpdate (dictInsert m kv.1 kv.2) t := by
      simp [dictUpdate]
    rw [List.map_cons, List.nodup_cons] at hnd
    by_cases hk : kv.1 = k
    · have hv : v = kv.2 := by
        simp [dictGet, List.find?_cons, hk] at h
        exact h.symm
      subst hv
      rw [hstep, dictGet_dictUpdate_not_mem]
      · rw [dictGet_dictInsert, if_pos hk.symm]
      · intro x hx he
        exact hnd.1 (by rw [hk, ← he]; exact List.mem_map_of_mem _ hx)
    · have hd : (decide (kv.1 = k) = false) := by simpa using hk
      have h' : dictGet t k = some v := by
        simpa [dictGet, List.find?_cons, hd] using h
      rw [hstep]
      exact ih _ hnd.2 h'

/-- C8: for both tools' settings loaders, a parsed settings object is
merged over the defaults, so every default key stays present and every
loaded key takes the file's value; a missing, unreadable or invalid file
yields exactly the defaults. -/
theorem claim_C8_load_settings (defaults : List (String × JVal))
    (st : SettingsFileState) :
    (∀ k, (dictGet defaults k).isSome →
      (dictGet (load_settings defaults st) k).isSome)
    ∧ (∀ obj, st = .parsed obj → (obj.map Prod.fst).Nodup →
        ∀ k v, dictGet obj k = some v →
          dictGet (load_settings defaults st) k = some v)
    ∧ (st = .missing ∨ st = .unreadable ∨ st = .invalidJson →
        load_settings defaults st = defaults) := by
  refine ⟨?_, ?_, ?_⟩
  · intro k h
    cases st with
    | parsed obj => exact dictGet_isSome_dictUpdate obj defaults k h
    | missing => exact h
    | unreadable => exact h
    | invalidJson => exact h
  · intro obj hst hnd k v h
    subst hst
    exact dictGet_dictUpdate_of_mem obj defaults k v hnd h
  · rintro (rfl | rfl | rfl) <;> rfl

/-- Witness for C8 at a concrete load: defaults with keys a and b, a file
binding b and c; the loaded value of b wins and the default a survives. -/
theorem claim_C8_load_settings_witness :
    dictGet [("b", JVal.num 9), ("c", JVal.num 7)] "b" = some (JVal.num 9)
    ∧ dictGet
        (load_settings [("a", JVal.num 1), ("b", JVal.num 2)]
          (.parsed [("b", JVal.num 9), ("c", JVal.num 7)])) "b"
      = some (JVal.num 9) :=
  ⟨by decide,
   (claim_C8_load_settings [("a", JVal.num 1), ("b", JVal.num 2)]
      (.parsed [("b", JVal.num 9), ("c", JVal.num 7)])).2.1
     [("b", JVal.num 9), ("c", JVal.num 7)] rfl (by decide) "b" (JVal.num 9)
     (by decide)⟩

/-- Helper: a failed download removes the partial file and returns None. -/
lemma doDownload_none (env : DownloadEnv) (h : env.download = none) :
    doDownload env = ⟨false, false, true, none, true⟩ := by
  unfold doDownload; rw [h]

/-- Helper: a completed download failing the enabled checksum test is
removed and None returned. -/
lemma doDownload_mismatch (env : DownloadEnv) (sz : Nat) (sha : String)
    (h : env.download = some (sz, sha))
    (hcond : env.expectedSha1 ≠ "" ∧ env.checkSha1 = true ∧
      pyLower sha ≠ pyLower env.expectedSha1) :
    doDownload env = ⟨false, false, true, none, true⟩ := by
  unfold doDownload; rw [h]; dsimp only; rw [if_pos hcond]

/-- Helper: a completed download passing (or exempt from) the checksum
test returns the path. -/
lemma doDownload_pass (env : DownloadEnv) (sz : Nat) (sha : String)
    (h : env.download = some (sz, sha))
    (hcond : ¬(env.expectedSha1 ≠ "" ∧ env.checkSha1 = true ∧
      pyLower sha ≠ pyLower env.expectedSha1)) :
    doDownload env = ⟨true, false, true, some sha, false⟩ := by
  unfold doDownload; rw [h]; dsimp only; rw [if_neg hcond]

/-- Helper: the three conclusions of C2 hold for any run that reached the
download part. -/
lemma doDownload_conclusions (env : DownloadEnv)
    (hs : env.expectedSha1 ≠ "") (hc : env.checkSha1 = true) :
    ((doDownload env).returnedPath = true →
      ∃ s, (doDownload env).finalSha1 = some s ∧
        pyLower s = pyLower env.expectedSha1)
    ∧ (∀ sz sha, env.download = some (sz, sha) →
        pyLower sha ≠ pyLower env.expectedSha1 →
        (doDownload env).returnedPath = false ∧
        (doDownload env).removedFile = true)
    ∧ (doDownload env).usedExisting = false := by
  cases hd : env.download with
  | none =>
    rw [doDownload_none env hd]
    refine ⟨by simp, ?_, rfl⟩
    intro sz sha hd' _
    simp at hd'
  | some p =>
    obtain ⟨sz, sha⟩ := p
    by_cases hne : pyLower sha ≠ pyLower env.expectedSha1
    · rw [doDownload_mismatch env sz sha hd ⟨hs, hc, hne⟩]
      refine ⟨by simp, ?_, rfl⟩
      intro sz' sha' hd' _
      cases hd'
      exact ⟨rfl, rfl⟩
    · rw [doDownload_pass env sz sha hd (fun hcond => hne hcond.2.2)]
      refine ⟨?_, ?_, rfl⟩
      · intro _
        exact ⟨sha, rfl, by simpa using hne⟩
      · intro sz' sha' hd' hne'
        cases hd'
        exact absurd hne' hne

/-- C2: with a non-empty expected SHA1 and check_sha1 on, download_file
only returns a path whose file's digest matches the expected one up to
case; a fresh download with a mismatched digest is deleted and None
returned; and a pre-existing file of the expected size is reused without
re-download only when its digest matches. -/
theorem claim_C2_download_file (env : DownloadEnv)
    (hs : env.expectedSha1 ≠ "") (hc : env.checkSha1 = true) :
    ((download_file env).returnedPath = true →
      ∃ s, (download_file env).finalSha1 = some s ∧
        pyLower s = pyLower env.expectedSha1)
    ∧ (∀ sz sha, env.download = some (sz, sha) →
        pyLower sha ≠ pyLower env.expectedSha1 →
        (download_file env).downloaded = true →
        (download_file env).returnedPath = false ∧
        (download_file env).removedFile = true)
    ∧ ((download_file env).usedExisting = true →
        pyLower env.existingSha1 = pyLower env.expectedSha1 ∧
        (download_file env).downloaded = false) := by
  by_cases hA : env.fileExists = true ∧ env.downloadResume = true
  · by_cases hB : env.expectedSize ≠ 0 ∧ env.existingSize = env.expectedSize
    · by_cases hD : pyLower env.existingSha1 = pyLower env.expectedSha1
      · have heq : download_file env
            = ⟨true, true, false, some env.existingSha1, false⟩ := by
          unfold download_file
          rw [if_pos hA, if_pos hB, if_pos ⟨hs, hc⟩, if_pos hD]
        rw [heq]
        refine ⟨fun _ => ⟨env.existingSha1, rfl, hD⟩, ?_, fun _ => ⟨hD, rfl⟩⟩
        intro sz sha _ _ hdown
        cases hdown
      · have heq : download_file env = doDownload env := by
          unfold download_file
          rw [if_pos hA, if_pos hB, if_pos ⟨hs, hc⟩, if_neg hD]
        rw [heq]
        obtain ⟨c1, c2, c3⟩ := doDownload_conclusions env hs hc
        exact ⟨c1, fun sz sha hd hne _ => c2 sz sha hd hne,
          fun hused => absurd (c3 ▸ hused) (by simp)⟩
    · have heq : download_file env = doDownload env := by
        unfold download_file
        rw [if_pos hA, if_neg hB]
      rw [heq]
      obtain ⟨c1, c2, c3⟩ := doDownload_conclusions env hs hc
      exact ⟨c1, fun sz sha hd hne _ => c2 sz sha hd hne,
        fun hused => absurd (c3 ▸ hused) (by simp)⟩
  · have heq : download_file env = doDownload env := by
      unfold download_file
      rw [if_neg hA]
    rw [heq]
    obtain ⟨c1, c2, c3⟩ := doDownload_conclusions env hs hc
    exact ⟨c1, fun sz sha hd hne _ => c2 sz sha hd hne,
      fun hused => absurd (c3 ▸ hused) (by simp)⟩

/-- Witness for C2 at a concrete run: no pre-existing file, a download
whose digest matches the expected one in a different case; the returned
path carries a matching digest. -/
theorem claim_C2_download_file_witness :
    ("ABC" : String) ≠ ""
    ∧ (download_file
        ⟨false, 0, "", 100, "ABC", true, true, some (100, "abc")⟩).returnedPath
        = true
    ∧ ∃ s, (download_file
        ⟨false, 0, "", 100, "ABC", true, true,
          some (100, "abc")⟩).finalSha1 = some s ∧
        pyLower s = pyLower "ABC" :=
  ⟨by decide, by decide,
   (claim_C2_download_file
      ⟨false, 0, "", 100, "ABC", true, true, some (100, "abc")⟩
      (by decide) rfl).1 (by decide)⟩

/-- C6: get_unique_values returns the sorted duplicate-free list of the
truthy values the field takes among exactly the catalog items that agree
with every filter entry; items failing a filter contribute nothing, and a
missing catalog yields the empty list. -/
theorem claim_C6_get_unique_values {V : Type} [DecidableEq V] [LinearOrder V]
    (items : List (Item V)) (field : String)
    (filters : Option (List (String × V))) (truthy : V → Bool) (x : V) :
    (x ∈ get_unique_values (some items) field filters truthy ↔
      ∃ it ∈ items, passesFilters filters it = true ∧
        itemGet it field = some x ∧ truthy x = true)
    ∧ (get_unique_values (some items) field filters truthy).Nodup
    ∧ (get_unique_values (some items) field filters truthy).Pairwise (· ≤ ·)
    ∧ get_unique_values (none : Option (List (Item V))) field filters truthy
      = [] := by
  refine ⟨?_, ?_, ?_, rfl⟩
  · unfold get_unique_values
    dsimp only
    by_cases hemp : items.isEmpty
    · rw [if_pos hemp]
      rw [List.isEmpty_iff] at hemp
      subst hemp
      simp
    · rw [if_neg hemp]
      rw [(List.perm_insertionSort _ _).mem_iff, List.mem_dedup,
        List.mem_filterMap]
      constructor
      · rintro ⟨it, hit, hf⟩
        rw [List.mem_filter] at hit
        cases hg : itemGet it field with
        | none => rw [hg] at hf; dsimp only at hf; cases hf
        | some v =>
          rw [hg] at hf
          dsimp only at hf
          by_cases ht : truthy v = true
          · rw [if_pos ht] at hf
            cases hf
            exact ⟨it, hit.1, hit.2, hg, ht⟩
          · rw [if_neg ht] at hf
            cases hf
      · rintro ⟨it, hit, hp, hg, ht⟩
        refine ⟨it, List.mem_filter.mpr ⟨hit, hp⟩, ?_⟩
        rw [hg]
        dsimp only
        rw [if_pos ht]
  · unfold get_unique_values
    dsimp only
    by_cases hemp : items.isEmpty
    · rw [if_pos hemp]; exact List.nodup_nil
    · rw [if_neg hemp]
      exact (List.perm_insertionSort _ _).symm.nodup (List.nodup_dedup _)
  · unfold get_unique_values
    dsimp only
    by_cases hemp : items.isEmpty
    · rw [if_pos hemp]; exact List.Pairwise.nil
    · rw [if_neg hemp]
      exact List.sorted_insertionSort _ _

/-- Helper: a file written from one walk level with hiding on is a
single non-hidden name. -/
lemma levelFiles_false_hidden (cs : List FsEntry) (p : List String)
    (hp : p ∈ levelFiles false cs) : ∀ c ∈ p, isHidden c = false := by
  unfold levelFiles at hp
  rw [List.mem_filterMap] at hp
  obtain ⟨e, _, hfe⟩ := hp
  cases e with
  | file m =>
    dsimp only at hfe
    by_cases hm : isHidden m = true
    · simp [hm] at hfe
    · rw [Bool.not_eq_true] at hm
      simp [hm] at hfe
      subst hfe
      intro c hc
      rw [List.mem_singleton] at hc
      subst hc
      exact hm
  | dir m sub => cases hfe

/-- Helper: every path produced below the walked folder with hiding on
consists of non-hidden components only. -/
lemma subWalks_false_hidden (cs : List FsEntry) :
    ∀ p ∈ subWalks false cs, ∀ c ∈ p, isHidden c = false := by
  induction cs using subWalks.induct false with
  | case1 => simp [subWalks]
  | case2 m rest ih =>
    intro p hp
    rw [show subWalks false (FsEntry.file m :: rest) = subWalks false rest
      from by rw [subWalks]] at hp
    exact ih p hp
  | case3 m sub rest ihsub ihrest =>
    intro p hp
    rw [show subWalks false (FsEntry.dir m sub :: rest)
        = (if false || !isHidden m then
            (levelFiles false sub ++ subWalks false sub).map (m :: ·)
          else []) ++ subWalks false rest
      from by rw [subWalks]] at hp
    rw [List.mem_append] at hp
    rcases hp with hp | hp
    · by_cases hm : isHidden m = true
      · simp [hm] at hp
      · rw [Bool.not_eq_true] at hm
        simp only [hm, Bool.not_false, Bool.false_or, if_true,
          List.mem_map] at hp
        obtain ⟨q, hq, rfl⟩ := hp
        intro c hc
        rcases List.mem_cons.mp hc with rfl | hc
        · exact hm
        · rcases List.mem_append.mp hq with hq | hq
          · exact levelFiles_false_hidden sub q hq c hc
          · exact ihsub q hq c hc
    · exact ihrest p hp

/-- Helper: with show_hidden on, the filtered level files are all the
level's files. -/
lemma levelFiles_true (cs : List FsEntry) :
    levelFiles true cs = allLevelFiles cs := by
  induction cs with
  | nil => rfl
  | cons e rest ih =>
    cases e with
    | file m => simp [levelFiles, allLevelFiles, List.filterMap_cons, ih]
    | dir m sub => simp [levelFiles, allLevelFiles, List.filterMap_cons, ih]

/-- Helper: with show_hidden on, the recursive walk keeps every file. -/
lemma subWalks_true (cs : List FsEntry) :
    subWalks true cs = allSubWalks cs := by
  induction cs using subWalks.induct true with
  | case1 => rw [subWalks, allSubWalks]
  | case2 m rest ih => rw [subWalks, allSubWalks, ih]
  | case3 m sub rest ihsub ihrest =>
    rw [subWalks, allSubWalks, ihsub, ihrest, levelFiles_true]
    simp

/-- C10: with show_hidden off, every path written into the archive has
only non-hidden components (no hidden file, and nothing below a hidden
directory); with show_hidden on, the walk writes every file of the
tree. -/
theorem claim_C10_hidden_filtering (cs : List FsEntry) (p : List String) :
    (p ∈ walkFrom false cs → ∀ c ∈ p, isHidden c = false)
    ∧ walkFrom true cs = allWalkFrom cs := by
  constructor
  · intro hp
    rcases List.mem_append.mp hp with hp | hp
    · exact levelFiles_false_hidden cs p hp
    · exact subWalks_false_hidden cs p hp
  · unfold walkFrom allWalkFrom
    rw [levelFiles_true, subWalks_true]

/-- Witness for C10 at a concrete tree: the path sub/a.txt is archived
with hiding on (while .secret and .git/key.txt are not), and the theorem
certifies all its components are non-hidden. -/
theorem claim_C10_hidden_filtering_witness :
    ["sub", "a.txt"] ∈ walkFrom false
      [FsEntry.file ".secret", FsEntry.dir "sub" [FsEntry.file "a.txt"],
        FsEntry.dir ".git" [FsEntry.file "key.txt"]]
    ∧ ∀ c ∈ ["sub", "a.txt"], isHidden c = false :=
  ⟨by simp only [walkFrom, subWalks, levelFiles, List.filterMap]; decide,
   (claim_C10_hidden_filtering
      [FsEntry.file ".secret", FsEntry.dir "sub" [FsEntry.file "a.txt"],
        FsEntry.dir ".git" [FsEntry.file "key.txt"]] ["sub", "a.txt"]).1
     (by simp only [walkFrom, subWalks, levelFiles, List.filterMap]; decide)⟩

/-- Helper: in a list with strictly decreasing mtimes, the elements
dropped after position k are exactly those with at least k list members
strictly newer than them. -/
lemma mem_drop_iff_newer_count :
    ∀ (l : List ArchiveFile), l.Pairwise (fun a b => b.mtime < a.mtime) →
      ∀ (k : Nat) (a : ArchiveFile),
        (a ∈ l.drop k ↔ a ∈ l ∧
          k ≤ (l.filter (fun b => decide (a.mtime < b.mtime))).length) := by
  intro l
  induction l with
  | nil => intro _ k a; simp
  | cons x t ih =>
    intro hl k a
    rcases List.pairwise_cons.mp hl with ⟨hx, ht⟩
    cases k with
    | zero => simp
    | succ k =>
      rw [List.drop_succ_cons, ih ht k a]
      constructor
      · rintro ⟨hat, hk⟩
        have hkey : a.mtime < x.mtime := hx a hat
        refine ⟨List.mem_cons_of_mem _ hat, ?_⟩
        rw [List.filter_cons, if_pos (by simpa using hkey)]
        simp only [List.length_cons]
        omega
      · rintro ⟨ha, hk⟩
        rcases List.mem_cons.mp ha with rfl | hat
        · exfalso
          have hfil : t.filter (fun b => decide (a.mtime < b.mtime)) = [] := by
            rw [List.filter_eq_nil_iff]
            intro b hb
            simpa using not_lt.mpr (le_of_lt (hx b hb))
          rw [List.filter_cons, if_neg (by simp), hfil] at hk
          simp at hk
        · have hkey : a.mtime < x.mtime := hx a hat
          refine ⟨hat, ?_⟩
          rw [List.filter_cons, if_pos (by simpa using hkey)] at hk
          simp only [List.length_cons] at hk
          omega

/-- Helper: keeping only the elements not dropped after position k
leaves at most k elements. -/
lemma length_filter_not_mem_drop (l : List ArchiveFile) (k : Nat) :
    (l.filter (fun f => decide (f ∉ l.drop k))).length ≤ k := by
  suffices h : ∀ d, d = l.drop k →
      (l.filter (fun f => decide (f ∉ d))).length ≤ k from h _ rfl
  intro d hd
  conv_lhs => rw [← List.take_append_drop k l]
  rw [List.filter_append, List.length_append]
  have h2 : (l.drop k).filter (fun f => decide (f ∉ d)) = [] := by
    rw [List.filter_eq_nil_iff]
    intro b hb
    subst hd
    simpa using hb
  rw [h2]
  have h3 := List.length_filter_le (fun f => decide (f ∉ d)) (l.take k)
  have h4 := List.length_take_le k l
  simp only [List.length_nil]
  omega

/-- C4: with positive max_backups, after manage_backups at most
max_backups matching archives remain in the directory and the deleted
archives are exactly the matching ones with at least max_backups strictly
newer matching archives (those beyond the max_backups most recently
modified, the mtimes being distinct); with max_backups <= 0 nothing is
deleted. -/
theorem claim_C4_manage_backups (folderName : String)
    (dir : List ArchiveFile) (mb : Int)
    (hdist : (dir.filter (matchesBackup folderName)).Pairwise
      (fun a b => a.mtime ≠ b.mtime)) :
    (mb ≤ 0 → manage_backups folderName dir mb = (dir, []))
    ∧ (0 < mb →
        ((manage_backups folderName dir mb).1.filter
            (matchesBackup folderName)).length ≤ mb.toNat
        ∧ (∀ a, a ∈ (manage_backups folderName dir mb).2 ↔
            a ∈ dir.filter (matchesBackup folderName) ∧
            mb.toNat ≤ ((dir.filter (matchesBackup folderName)).filter
              (fun b => decide (a.mtime < b.mtime))).length)) := by
  constructor
  · intro h
    unfold manage_backups
    rw [if_pos h]
  · intro hpos
    have hnle : ¬ mb ≤ 0 := by omega
    have hperm : (List.insertionSort (fun a b : ArchiveFile =>
          b.mtime ≤ a.mtime) (dir.filter (matchesBackup folderName))).Perm
        (dir.filter (matchesBackup folderName)) :=
      List.perm_insertionSort _ _
    have hsorted_le : (List.insertionSort (fun a b : ArchiveFile =>
          b.mtime ≤ a.mtime)
          (dir.filter (matchesBackup folderName))).Pairwise
        (fun a b => b.mtime ≤ a.mtime) := by
      haveI : IsTotal ArchiveFile (fun a b => b.mtime ≤ a.mtime) :=
        ⟨fun a b => le_total b.mtime a.mtime⟩
      haveI : IsTrans ArchiveFile (fun a b => b.mtime ≤ a.mtime) :=
        ⟨fun a b c hab hbc => le_trans hbc hab⟩
      exact List.sorted_insertionSort _ _
    have hdist' : (List.insertionSort (fun a b : ArchiveFile =>
          b.mtime ≤ a.mtime)
          (dir.filter (matchesBackup folderName))).Pairwise
        (fun a b => a.mtime ≠ b.mtime) :=
      (List.Perm.pairwise_iff (fun h => Ne.symm h) hperm).mpr hdist
    have hstrict : (List.insertionSort (fun a b : ArchiveFile =>
          b.mtime ≤ a.mtime)
          (dir.filter (matchesBackup folderName))).Pairwise
        (fun a b => b.mtime < a.mtime) :=
      (hsorted_le.and hdist').imp
        (fun h => lt_of_le_of_ne h.1 (Ne.symm h.2))
    by_cases hlt : mb < ((List.insertionSort (fun a b : ArchiveFile =>
        b.mtime ≤ a.mtime) (dir.filter (matchesBackup folderName))).length
        : Int)
    · have hmb : manage_backups folderName dir mb =
          (dir.filter (fun f => decide (f ∉ (List.insertionSort
              (fun a b : ArchiveFile => b.mtime ≤ a.mtime)
              (dir.filter (matchesBackup folderName))).drop mb.toNat)),
           (List.insertionSort (fun a b : ArchiveFile =>
              b.mtime ≤ a.mtime)
              (dir.filter (matchesBackup folderName))).drop mb.toNat) := by
        unfold manage_backups
        rw [if_neg hnle]
        dsimp only
        rw [if_pos hlt]
      rw [hmb]
      constructor
      · have hcomm : (dir.filter (fun f =>
              decide (f ∉ (List.insertionSort (fun a b : ArchiveFile =>
                b.mtime ≤ a.mtime)
                (dir.filter (matchesBackup folderName))).drop
                mb.toNat))).filter (matchesBackup folderName)
            = (dir.filter (matchesBackup folderName)).filter (fun f =>
              decide (f ∉ (List.insertionSort (fun a b : ArchiveFile =>
                b.mtime ≤ a.mtime)
                (dir.filter (matchesBackup folderName))).drop mb.toNat)) := by
          rw [List.filter_filter, List.filter_filter]
          simp only [Bool.and_comm]
        rw [hcomm, ← (hperm.filter _).length_eq]
        exact length_filter_not_mem_drop _ _
      · intro a
        rw [mem_drop_iff_newer_count _ hstrict mb.toNat a,
          hperm.mem_iff, (hperm.filter _).length_eq]
    · have hmb : manage_backups folderName dir mb = (dir, []) := by
        unfold manage_backups
        rw [if_neg hnle]
        dsimp only
        rw [if_neg hlt]
      rw [hmb]
      dsimp only
      have hlen : ((dir.filter (matchesBackup folderName)).length : Int)
          ≤ mb := by
        rw [← hperm.length_eq]
        exact not_lt.mp hlt
      constructor
      · omega
      · intro a
        simp only [List.not_mem_nil, false_iff]
        rintro ⟨ha, hk⟩
        have hsub : ((dir.filter (matchesBackup folderName)).filter
            (fun b => decide (a.mtime < b.mtime))).length
            < (dir.filter (matchesBackup folderName)).length := by
          rcases lt_or_eq_of_le (List.length_filter_le _ _) with h | h
          · exact h
          · exfalso
            have heq := (List.filter_sublist
              (l := dir.filter (matchesBackup folderName))
              (p := fun b => decide (a.mtime < b.mtime))).eq_of_length h
            have := heq ▸ ha
            rw [List.mem_filter] at this
            simpa using this.2
        omega

/-- Witness for C4 at a concrete run: three matching archives with
distinct mtimes, one unrelated file, and max_backups 2; the theorem
certifies at most two matching archives remain. -/
theorem claim_C4_manage_backups_witness :
    ([ArchiveFile.mk "GTNH_a_1.zip" 1, ArchiveFile.mk "GTNH_a_2.zip" 3,
      ArchiveFile.mk "GTNH_a_3.zip" 2, ArchiveFile.mk "notes.txt" 9].filter
        (matchesBackup "GTNH_a")).Pairwise (fun a b => a.mtime ≠ b.mtime)
    ∧ (0 : Int) < 2
    ∧ ((manage_backups "GTNH_a"
        [ArchiveFile.mk "GTNH_a_1.zip" 1, ArchiveFile.mk "GTNH_a_2.zip" 3,
          ArchiveFile.mk "GTNH_a_3.zip" 2, ArchiveFile.mk "notes.txt" 9]
        2).1.filter (matchesBackup "GTNH_a")).length ≤ (2 : Int).toNat :=
  ⟨by decide, by decide,
   ((claim_C4_manage_backups "GTNH_a"
      [ArchiveFile.mk "GTNH_a_1.zip" 1, ArchiveFile.mk "GTNH_a_2.zip" 3,
        ArchiveFile.mk "GTNH_a_3.zip" 2, ArchiveFile.mk "notes.txt" 9]
      2 (by decide)).2 (by decide)).1⟩

/-- Helper: the loop comparison n / 1024^k < 1024, exact over the
rationals, expressed over the naturals. -/
lemma cast_div_pow_lt (n k : Nat) :
    ((n : ℚ) / 1024 ^ k < 1024) ↔ n < 1024 ^ (k + 1) := by
  rw [div_lt_iff₀ (by positivity)]
  have hcast : (1024 : ℚ) * 1024 ^ k = ((1024 ^ (k + 1) : Nat) : ℚ) := by
    push_cast; ring
  rw [hcast, Nat.cast_lt]

/-- Helper: the while-loop guard 1024 <= n / 1024^k over the naturals. -/
lemma cast_le_div_pow (n k : Nat) :
    ((1024 : ℚ) ≤ (n : ℚ) / 1024 ^ k) ↔ 1024 ^ (k + 1) ≤ n := by
  rw [le_div_iff₀ (by positivity)]
  have hcast : (1024 : ℚ) * 1024 ^ k = ((1024 ^ (k + 1) : Nat) : ℚ) := by
    push_cast; ring
  rw [hcast, Nat.cast_le]

/-- Helper: the first division by 1024 in exponent form. -/
lemma div_step1 (n : Nat) : (n : ℚ) / 1024 = (n : ℚ) / 1024 ^ 1 := by
  norm_num

/-- Helper: the second division by 1024 in exponent form. -/
lemma div_step2 (n : Nat) :
    ((n : ℚ) / 1024 ^ 1) / 1024 = (n : ℚ) / 1024 ^ 2 := by
  rw [div_div]; norm_num

/-- Helper: the third division by 1024 in exponent form. -/
lemma div_step3 (n : Nat) :
    ((n : ℚ) / 1024 ^ 2) / 1024 = (n : ℚ) / 1024 ^ 3 := by
  rw [div_div]; norm_num

/-- Helper: the fourth division by 1024 in exponent form. -/
lemma div_step4 (n : Nat) :
    ((n : ℚ) / 1024 ^ 3) / 1024 = (n : ℚ) / 1024 ^ 4 := by
  rw [div_div]; norm_num

/-- Helper: the format_size loop lands on the least unit index k with
n / 1024^k < 1024, capped at GB. -/
lemma fsScan_eval (n : Nat) :
    fsScan (n : ℚ) fsUnits =
      if n < 1024 then ((n : ℚ) / 1024 ^ 0, "B")
      else if n < 1024 ^ 2 then ((n : ℚ) / 1024 ^ 1, "KB")
      else if n < 1024 ^ 3 then ((n : ℚ) / 1024 ^ 2, "MB")
      else ((n : ℚ) / 1024 ^ 3, "GB") := by
  show fsScan (n : ℚ) ("B" :: "KB" :: "MB" :: "GB" :: []) = _
  by_cases h1 : n < 1024
  · rw [if_pos h1, fsScan,
      if_pos (Or.inl (show (n : ℚ) < 1024 by exact_mod_cast h1))]
    simp
  · have c1 : ¬((n : ℚ) < 1024 ∨ ("B" : String) = "GB") := by
      rintro (h | h)
      · exact h1 (by exact_mod_cast h)
      · exact absurd h (by decide)
    rw [if_neg h1, fsScan, if_neg c1, div_step1 n]
    by_cases h2 : n < 1024 ^ 2
    · rw [if_pos h2, fsScan,
        if_pos (Or.inl ((cast_div_pow_lt n 1).mpr h2))]
    · have c2 : ¬((n : ℚ) / 1024 ^ 1 < 1024 ∨ ("KB" : String) = "GB") := by
        rintro (h | h)
        · exact h2 ((cast_div_pow_lt n 1).mp h)
        · exact absurd h (by decide)
      rw [if_neg h2, fsScan, if_neg c2, div_step2 n]
      by_cases h3 : n < 1024 ^ 3
      · rw [if_pos h3, fsScan,
          if_pos (Or.inl ((cast_div_pow_lt n 2).mpr h3))]
      · have c3 : ¬((n : ℚ) / 1024 ^ 2 < 1024 ∨ ("MB" : String) = "GB") := by
          rintro (h | h)
          · exact h3 ((cast_div_pow_lt n 2).mp h)
          · exact absurd h (by decide)
        rw [if_neg h3, fsScan, if_neg c3, div_step3 n, fsScan,
          if_pos (Or.inr rfl)]

/-- Helper: the human_size loop lands on the least unit index k with
n / 1024^k < 1024, capped at the fifth unit. -/
lemma hsLoop_eval (n : Nat) :
    hsLoop (n : ℚ) 0 =
      if n < 1024 then ((n : ℚ) / 1024 ^ 0, 0)
      else if n < 1024 ^ 2 then ((n : ℚ) / 1024 ^ 1, 1)
      else if n < 1024 ^ 3 then ((n : ℚ) / 1024 ^ 2, 2)
      else if n < 1024 ^ 4 then ((n : ℚ) / 1024 ^ 3, 3)
      else ((n : ℚ) / 1024 ^ 4, 4) := by
  have hlen : hsUnits.length - 1 = 4 := by decide
  by_cases h1 : n < 1024
  · have c1 : ¬((1024 : ℚ) ≤ (n : ℚ) ∧ 0 < hsUnits.length - 1) := by
      rintro ⟨h, -⟩
      exact absurd (show (1024 : ℕ) ≤ n by exact_mod_cast h) (not_le.mpr h1)
    rw [if_pos h1, hsLoop, if_neg c1]
    simp
  · have c1 : (1024 : ℚ) ≤ (n : ℚ) ∧ 0 < hsUnits.length - 1 :=
      ⟨by exact_mod_cast not_lt.mp h1, by rw [hlen]; omega⟩
    rw [if_neg h1, hsLoop, if_pos c1, div_step1 n]
    by_cases h2 : n < 1024 ^ 2
    · have c2 : ¬((1024 : ℚ) ≤ (n : ℚ) / 1024 ^ 1 ∧
          1 < hsUnits.length - 1) := by
        rintro ⟨h, -⟩
        exact absurd ((cast_le_div_pow n 1).mp h) (not_le.mpr h2)
      rw [if_pos h2, hsLoop, if_neg c2]
    · have c2 : (1024 : ℚ) ≤ (n : ℚ) / 1024 ^ 1 ∧ 1 < hsUnits.length - 1 :=
        ⟨(cast_le_div_pow n 1).mpr (not_lt.mp h2), by rw [hlen]; omega⟩
      rw [if_neg h2, hsLoop, if_pos c2, div_step2 n]
      by_cases h3 : n < 1024 ^ 3
      · have c3 : ¬((1024 : ℚ) ≤ (n : ℚ) / 1024 ^ 2 ∧
            2 < hsUnits.length - 1) := by
          rintro ⟨h, -⟩
          exact absurd ((cast_le_div_pow n 2).mp h) (not_le.mpr h3)
        rw [if_pos h3, hsLoop, if_neg c3]
      · have c3 : (1024 : ℚ) ≤ (n : ℚ) / 1024 ^ 2 ∧
            2 < hsUnits.length - 1 :=
          ⟨(cast_le_div_pow n 2).mpr (not_lt.mp h3), by rw [hlen]; omega⟩
        rw [if_neg h3, hsLoop, if_pos c3, div_step3 n]
        by_cases h4 : n < 1024 ^ 4
        · have c4 : ¬((1024 : ℚ) ≤ (n : ℚ) / 1024 ^ 3 ∧
              3 < hsUnits.length - 1) := by
            rintro ⟨h, -⟩
            exact absurd ((cast_le_div_pow n 3).mp h) (not_le.mpr h4)
          rw [if_pos h4, hsLoop, if_neg c4]
        · have c4 : (1024 : ℚ) ≤ (n : ℚ) / 1024 ^ 3 ∧
              3 < hsUnits.length - 1 :=
            ⟨(cast_le_div_pow n 3).mpr (not_lt.mp h4), by rw [hlen]; omega⟩
          rw [if_neg h4, hsLoop, if_pos c4, div_step4 n]
          have c5 : ¬((1024 : ℚ) ≤ (n : ℚ) / 1024 ^ 4 ∧
              4 < hsUnits.length - 1) := by
            rintro ⟨-, h⟩
            rw [hlen] at h
            omega
          rw [hsLoop, if_neg c5]

/-- C7: format_size and human_size return "0 B" and "0 Б" on zero, and on
every positive size they render n / 1024^k, with two and one decimals
respectively, using the unit at the least index k with n / 1024^k < 1024,
capped at the last unit of each table. -/
theorem claim_C7_size_formatting (n : Nat) (hpos : 0 < n) :
    format_size 0 = "0 B" ∧ human_size 0 = "0 Б"
    ∧ format_size n = format_size_spec n
    ∧ human_size n = human_size_spec n := by
  have hne : ¬ n = 0 := Nat.pos_iff_ne_zero.mp hpos
  refine ⟨rfl, rfl, ?_, ?_⟩
  · unfold format_size format_size_spec
    rw [if_neg hne, if_neg hne]
    dsimp only
    rw [fsScan_eval n]
    by_cases h1 : n < 1024
    · rw [if_pos h1, if_pos h1]; rfl
    · rw [if_neg h1, if_neg h1]
      by_cases h2 : n < 1024 ^ 2
      · rw [if_pos h2, if_pos h2]; rfl
      · rw [if_neg h2, if_neg h2]
        by_cases h3 : n < 1024 ^ 3
        · rw [if_pos h3, if_pos h3]; rfl
        · rw [if_neg h3, if_neg h3]; rfl
  · unfold human_size human_size_spec
    rw [if_neg hne, if_neg hne]
    dsimp only
    rw [hsLoop_eval n]
    by_cases h1 : n < 1024
    · rw [if_pos h1, if_pos h1]
    · rw [if_neg h1, if_neg h1]
      by_cases h2 : n < 1024 ^ 2
      · rw [if_pos h2, if_pos h2]
      · rw [if_neg h2, if_neg h2]
        by_cases h3 : n < 1024 ^ 3
        · rw [if_pos h3, if_pos h3]
        · rw [if_neg h3, if_neg h3]
          by_cases h4 : n < 1024 ^ 4
          · rw [if_pos h4, if_pos h4]
          · rw [if_neg h4, if_neg h4]

/-- Witness for C7 at a concrete size: five million bytes is positive,
and the loop rendering agrees with the least-index rendering there. -/
theorem claim_C7_size_formatting_witness :
    0 < 5000000
    ∧ format_size 5000000 = format_size_spec 5000000
    ∧ human_size 5000000 = human_size_spec 5000000 :=
  ⟨by decide,
   (claim_C7_size_formatting 5000000 (by decide)).2.2.1,
   (claim_C7_size_formatting 5000000 (by decide)).2.2.2⟩
